import Mathlib

/-!
Verification of the mise-tasks-mcp adapter (`src/mise_tasks_mcp`): the input
validators (`utils/validator.py`), the subprocess executor wrapper
(`utils/command.py`) and the tool handlers (`server.py`), shallowly embedded
over `List Char` strings.  Python regular expressions are embedded by a small
regex AST with Brzozowski-derivative matching, proved correct against an
inductive match relation, so that `re.match(r'^...$', s)` semantics
(including `$` also matching just before one final newline) is captured
faithfully.
-/

namespace MiseSpec

/-- Strings of the Python program are modelled as lists of characters. -/
abbrev Str := List Char

/-- Character strings written as Lean string literals, as lists of chars. -/
def lit (s : String) : Str := s.data

/-! ## Regular expressions with Brzozowski derivatives

The validator module matches candidate identifiers with `re.match` against
anchored patterns built from character classes, concatenation, `*`, `+` and
`?`.  `RE` is the corresponding abstract syntax; `cls` holds a decidable
character class. -/

inductive RE where
  | nul : RE
  | eps : RE
  | cls (p : Char → Bool) : RE
  | cat (r1 r2 : RE) : RE
  | alt (r1 r2 : RE) : RE
  | star (r : RE) : RE

/-- The language of a regex, as an inductive match relation. -/
inductive Matches : RE → Str → Prop where
  | eps : Matches .eps []
  | cls {p : Char → Bool} {c : Char} (h : p c = true) : Matches (.cls p) [c]
  | cat {r1 r2 : RE} {s1 s2 : Str} (h1 : Matches r1 s1) (h2 : Matches r2 s2) :
      Matches (.cat r1 r2) (s1 ++ s2)
  | altL {r1 r2 : RE} {s : Str} (h : Matches r1 s) : Matches (.alt r1 r2) s
  | altR {r1 r2 : RE} {s : Str} (h : Matches r2 s) : Matches (.alt r1 r2) s
  | starNil {r : RE} : Matches (.star r) []
  | starCons {r : RE} {s1 s2 : Str} (h1 : Matches r s1) (h2 : Matches (.star r) s2) :
      Matches (.star r) (s1 ++ s2)

/-- Does the regex accept the empty string? -/
def nullable : RE → Bool
  | .nul => false
  | .eps => true
  | .cls _ => false
  | .cat a b => nullable a && nullable b
  | .alt a b => nullable a || nullable b
  | .star _ => true

/-- Brzozowski derivative of a regex by one character. -/
def deriv : RE → Char → RE
  | .nul, _ => .nul
  | .eps, _ => .nul
  | .cls p, c => if p c then .eps else .nul
  | .cat a b, c =>
      if nullable a then .alt (.cat (deriv a c) b) (deriv b c) else .cat (deriv a c) b
  | .alt a b, c => .alt (deriv a c) (deriv b c)
  | .star r, c => .cat (deriv r c) (.star r)

/-- Executable full match of a regex against a string, by iterated derivatives. -/
def reMatch (r : RE) (l : Str) : Bool := nullable (l.foldl deriv r)

theorem matches_nul_elim {s : Str} (h : Matches .nul s) : False := by
  cases h

theorem nullable_of_matches_aux {r : RE} {w : Str} (h : Matches r w) :
    w = [] → nullable r = true := by
  induction h with
  | eps => intro _; rfl
  | cls hp => intro hw; simp at hw
  | cat h1 h2 ih1 ih2 =>
      intro hw
      rcases List.append_eq_nil.mp hw with ⟨hw1, hw2⟩
      simp [nullable, ih1 hw1, ih2 hw2]
  | altL h ih => intro hw; simp [nullable, ih hw]
  | altR h ih => intro hw; simp [nullable, ih hw]
  | starNil => intro _; rfl
  | starCons h1 h2 ih1 ih2 => intro _; rfl

theorem nullable_of_matches_nil {r : RE} (h : Matches r []) : nullable r = true :=
  nullable_of_matches_aux h rfl

theorem matches_nil_of_nullable {r : RE} (h : nullable r = true) : Matches r [] := by
  induction r with
  | nul => simp [nullable] at h
  | eps => exact .eps
  | cls p => simp [nullable] at h
  | cat a b iha ihb =>
      simp only [nullable, Bool.and_eq_true] at h
      have := Matches.cat (iha h.1) (ihb h.2)
      simpa using this
  | alt a b iha ihb =>
      simp only [nullable, Bool.or_eq_true] at h
      cases h with
      | inl h => exact .altL (iha h)
      | inr h => exact .altR (ihb h)
  | star r ih => exact .starNil

theorem nullable_iff {r : RE} : nullable r = true ↔ Matches r [] :=
  ⟨matches_nil_of_nullable, nullable_of_matches_nil⟩

theorem deriv_sound {r : RE} {c : Char} {l : Str} (h : Matches (deriv r c) l) :
    Matches r (c :: l) := by
  induction r generalizing l with
  | nul => exact absurd h matches_nul_elim
  | eps => exact absurd h matches_nul_elim
  | cls p =>
      by_cases hp : p c = true
      · rw [deriv, if_pos hp] at h
        cases h
        exact .cls hp
      · rw [deriv, if_neg hp] at h
        exact absurd h matches_nul_elim
  | cat a b iha ihb =>
      by_cases hn : nullable a = true
      · rw [deriv, if_pos hn] at h
        cases h with
        | altL h =>
            cases h with
            | cat h1 h2 =>
                have := Matches.cat (iha h1) h2
                simpa using this
        | altR h =>
            have := Matches.cat (matches_nil_of_nullable hn) (ihb h)
            simpa using this
      · rw [deriv, if_neg hn] at h
        cases h with
        | cat h1 h2 =>
            have := Matches.cat (iha h1) h2
            simpa using this
  | alt a b iha ihb =>
      cases h with
      | altL h => exact .altL (iha h)
      | altR h => exact .altR (ihb h)
  | star r ih =>
      cases h with
      | cat h1 h2 =>
          have := Matches.starCons (ih h1) h2
          simpa using this

theorem deriv_complete_aux {r : RE} {w : Str} (h : Matches r w) :
    ∀ {c : Char} {l : Str}, w = c :: l → Matches (deriv r c) l := by
  induction h with
  | eps => intro c l hw; cases hw
  | cls hp =>
      intro c l hw
      cases hw
      rw [deriv, if_pos hp]
      exact .eps
  | @cat r1 r2 s1 s2 h1 h2 ih1 ih2 =>
      intro c l hw
      cases s1 with
      | nil =>
          have hn : nullable r1 = true := nullable_of_matches_nil h1
          rw [deriv, if_pos hn]
          exact .altR (ih2 hw)
      | cons x s1' =>
          rw [List.cons_append] at hw
          injection hw with hx hl
          subst hx
          subst hl
          have hm : Matches (.cat (deriv r1 x) r2) (s1' ++ s2) := .cat (ih1 rfl) h2
          by_cases hn : nullable r1 = true
          · rw [deriv, if_pos hn]; exact .altL hm
          · rw [deriv, if_neg hn]; exact hm
  | altL h ih =>
      intro c l hw
      exact .altL (ih hw)
  | altR h ih =>
      intro c l hw
      exact .altR (ih hw)
  | starNil => intro c l hw; cases hw
  | @starCons r s1 s2 h1 h2 ih1 ih2 =>
      intro c l hw
      cases s1 with
      | nil => exact ih2 hw
      | cons x s1' =>
          rw [List.cons_append] at hw
          injection hw with hx hl
          subst hx
          subst hl
          exact Matches.cat (ih1 rfl) h2

theorem deriv_complete {r : RE} {c : Char} {l : Str} (h : Matches r (c :: l)) :
    Matches (deriv r c) l :=
  deriv_complete_aux h rfl

theorem reMatch_iff {r : RE} {l : Str} : reMatch r l = true ↔ Matches r l := by
  induction l generalizing r with
  | nil => exact nullable_iff
  | cons c l ih =>
      constructor
      · intro h
        exact deriv_sound (ih.mp h)
      · intro h
        exact ih.mpr (deriv_complete h)

theorem not_matches_of_reMatch_false {r : RE} {l : Str} (h : reMatch r l = false) :
    ¬ Matches r l := by
  intro hm
  rw [reMatch_iff.mpr hm] at h
  cases h

/-! ## The validator module's patterns (`utils/validator.py`)

Character classes are ASCII ranges, exactly the ranges the Python patterns
spell out. -/

/-- Characters of the range `a-zA-Z`. -/
def isAsciiLetter (c : Char) : Bool :=
  ('a' ≤ c && c ≤ 'z') || ('A' ≤ c && c ≤ 'Z')

/-- Characters of the range `0-9`. -/
def isAsciiDigit (c : Char) : Bool :=
  '0' ≤ c && c ≤ '9'

/-- The class `[a-zA-Z_]` heading pattern `^[a-zA-Z_][a-zA-Z0-9_]*$`. -/
def envStartChar (c : Char) : Bool := isAsciiLetter c || c = '_'

/-- The class `[a-zA-Z0-9_]`. -/
def envChar (c : Char) : Bool := isAsciiLetter c || isAsciiDigit c || c = '_'

/-- The class `[a-zA-Z0-9_\-:\.]` of `validate_task_name`. -/
def taskChar (c : Char) : Bool :=
  isAsciiLetter c || isAsciiDigit c || c = '_' || c = '-' || c = ':' || c = '.'

/-- The class `[a-zA-Z0-9_\-]` of `validate_config_key`. -/
def configChar (c : Char) : Bool :=
  isAsciiLetter c || isAsciiDigit c || c = '_' || c = '-'

/-- One-or-more repetition `p+` of a character class, as a regex. -/
def plusCls (p : Char → Bool) : RE := .cat (.cls p) (.star (.cls p))

/-- Pattern `[a-zA-Z_][a-zA-Z0-9_]*` of `validate_env_var_name`
(`validator.py` line 21). -/
def envRE : RE := .cat (.cls envStartChar) (.star (.cls envChar))

/-- Pattern `[a-zA-Z0-9_\-:\.]+` of `validate_task_name` (`validator.py`
line 39). -/
def taskRE : RE := plusCls taskChar

/-- Pattern `[a-zA-Z0-9_\-]+(\.?[a-zA-Z0-9_\-]+)*` of `validate_config_key`
(`validator.py` line 86): note the OPTIONAL dot `\.?` in the group. -/
def configSrcRE : RE :=
  .cat (plusCls configChar)
    (.star (.cat (.alt .eps (.cls (fun c => c = '.'))) (plusCls configChar)))

/-- The pattern the spec names for config keys,
`[A-Za-z0-9_\-]+(\.[A-Za-z0-9_\-]+)*`, with a MANDATORY dot in the group. -/
def configClaimRE : RE :=
  .cat (plusCls configChar)
    (.star (.cat (.cls (fun c => c = '.')) (plusCls configChar)))

/-- Truth value of Python `bool(re.match(pattern, s))` for an anchored pattern
`^core$`: `re.match` anchors at the start, and `$` (without `re.MULTILINE`)
matches at the end of the string or just before a newline that is the last
character.  So the match succeeds iff `core` matches the whole string, or the
string ends in `'\n'` and `core` matches everything before that newline. -/
def pyMatchDollar (r : RE) (l : Str) : Bool :=
  reMatch r l ||
    (if l.getLast? = some '\n' then reMatch r l.dropLast else false)

/-- Embedding of `validate_env_var_name` (`validator.py` lines 7-22):
`if not name: return False` then `bool(re.match(r'^[a-zA-Z_][a-zA-Z0-9_]*$', name))`. -/
def validate_env_var_name (name : Str) : Bool :=
  if name = [] then false else pyMatchDollar envRE name

/-- Embedding of `validate_task_name` (`validator.py` lines 25-40). -/
def validate_task_name (name : Str) : Bool :=
  if name = [] then false else pyMatchDollar taskRE name

/-- Embedding of `validate_config_key` (`validator.py` lines 72-87). -/
def validate_config_key (key : Str) : Bool :=
  if key = [] then false else pyMatchDollar configSrcRE key

/-! ## `sanitize_input` (`validator.py` lines 43-69) -/

/-- Expand every character of a string into a block, concatenating the blocks
(the shape of Python `str.replace` when the needle is a single character). -/
def expandEach (f : Char → Str) : Str → Str
  | [] => []
  | c :: rest => f c ++ expandEach f rest

/-- Python `s.replace(c, repl)` for a one-character needle `c`. -/
def replaceCharWith (c : Char) (repl : Str) (l : Str) : Str :=
  expandEach (fun x => if x = c then repl else [x]) l

/-- The `dangerous_chars` list of `sanitize_input` (`validator.py` line 65),
in source order. -/
def dangerous_chars : List Char :=
  ['`', '$', '&', '|', ';', '<', '>', '(', ')', '\x7b', '\x7d', '[', ']',
   '"', '\'', '\n', '\r']

/-- Embedding of `sanitize_input` (`validator.py` lines 43-69).  `None` maps
to `""`; a string input is its own `str(value)`; null bytes are removed
(`replace('\x00', '')`); backslashes are doubled first; then every character
of `dangerous_chars` is prefixed with a backslash, in list order. -/
def sanitize_input : Option Str → Str
  | none => []
  | some v =>
      let v1 := v.filter (fun c => !(c = '\x00'))
      let v2 := replaceCharWith '\\' ['\\', '\\'] v1
      dangerous_chars.foldl (fun s c => replaceCharWith c ['\\', c] s) v2

/-! ## Inversion lemmas and a star induction principle -/

theorem eps_inv {l : Str} (h : Matches .eps l) : l = [] := by
  cases h; rfl

theorem cls_inv {p : Char → Bool} {l : Str} (h : Matches (.cls p) l) :
    ∃ c, l = [c] ∧ p c = true := by
  cases h with
  | cls hp => exact ⟨_, rfl, hp⟩

theorem cat_inv {r1 r2 : RE} {l : Str} (h : Matches (.cat r1 r2) l) :
    ∃ s1 s2, l = s1 ++ s2 ∧ Matches r1 s1 ∧ Matches r2 s2 := by
  cases h with
  | cat h1 h2 => exact ⟨_, _, rfl, h1, h2⟩

theorem alt_inv {r1 r2 : RE} {l : Str} (h : Matches (.alt r1 r2) l) :
    Matches r1 l ∨ Matches r2 l := by
  cases h with
  | altL h => exact .inl h
  | altR h => exact .inr h

theorem star_ind {r : RE} {motive : Str → Prop} (l : Str)
    (h : Matches (.star r) l) (h0 : motive [])
    (h1 : ∀ s1 s2, Matches r s1 → Matches (.star r) s2 → motive s2 →
      motive (s1 ++ s2)) :
    motive l := by
  suffices hgen : ∀ {r' : RE} {w : Str}, Matches r' w → r' = .star r → motive w by
    exact hgen h rfl
  intro r' w hw
  induction hw with
  | eps => intro he; exact absurd he (by intro he; cases he)
  | cls hp => intro he; exact absurd he (by intro he; cases he)
  | cat hx hy ihx ihy => intro he; exact absurd he (by intro he; cases he)
  | altL hx ihx => intro he; exact absurd he (by intro he; cases he)
  | altR hx ihx => intro he; exact absurd he (by intro he; cases he)
  | starNil =>
      intro he
      cases he
      exact h0
  | starCons hx hy ihx ihy =>
      intro he
      cases he
      exact h1 _ _ hx hy (ihy rfl)

theorem star_append {r : RE} {a b : Str} (ha : Matches (.star r) a)
    (hb : Matches (.star r) b) : Matches (.star r) (a ++ b) := by
  refine star_ind (motive := fun s => Matches (.star r) (s ++ b)) a ha ?_ ?_
  · simpa using hb
  · intro s1 s2 h1 _ ih
    have := Matches.starCons h1 ih
    simpa [List.append_assoc] using this

theorem star_of_plus {p : Char → Bool} {l : Str} (h : Matches (plusCls p) l) :
    Matches (.star (.cls p)) l := by
  obtain ⟨s1, s2, rfl, h1, h2⟩ := cat_inv h
  exact .starCons h1 h2

theorem plus_append {p : Char → Bool} {a b : Str} (ha : Matches (plusCls p) a)
    (hb : Matches (plusCls p) b) : Matches (plusCls p) (a ++ b) := by
  obtain ⟨s1, s2, rfl, h1, h2⟩ := cat_inv ha
  have := Matches.cat h1 (star_append h2 (star_of_plus hb))
  simpa [List.append_assoc] using this

/-! ## Python `$` semantics, characterized -/

theorem pyMatchDollar_iff {r : RE} {l : Str} :
    pyMatchDollar r l = true ↔
      (Matches r l ∨ ∃ t, Matches r t ∧ l = t ++ ['\n']) := by
  unfold pyMatchDollar
  rw [Bool.or_eq_true]
  constructor
  · rintro (h | h)
    · exact .inl (reMatch_iff.mp h)
    · by_cases hl : l.getLast? = some '\n'
      · rw [if_pos hl] at h
        refine .inr ⟨l.dropLast, reMatch_iff.mp h, ?_⟩
        have hne : l ≠ [] := by
          intro he
          rw [he] at hl
          simp at hl
        have hsplit := List.dropLast_append_getLast hne
        have hg : l.getLast hne = '\n' := by
          have := List.getLast?_eq_getLast l hne
          rw [this] at hl
          exact (Option.some.inj hl)
        rw [hg] at hsplit
        exact hsplit.symm
      · rw [if_neg hl] at h
        cases h
  · rintro (h | ⟨t, ht, rfl⟩)
    · exact .inl (reMatch_iff.mpr h)
    · refine .inr ?_
      rw [if_pos (by simp), List.dropLast_concat]
      exact reMatch_iff.mpr ht

theorem validate_shape_iff (core : RE) (hnul : nullable core = false) (s : Str) :
    (if s = [] then false else pyMatchDollar core s) = true ↔
      (Matches core s ∨ ∃ t, Matches core t ∧ s = t ++ ['\n']) := by
  by_cases hs : s = []
  · subst hs
    rw [if_pos rfl]
    constructor
    · intro h; cases h
    · rintro (h | ⟨t, ht, he⟩)
      · rw [nullable_of_matches_nil h] at hnul
        cases hnul
      · exact absurd he (by simp)
  · rw [if_neg hs]
    exact pyMatchDollar_iff

/-! ## The config-key pattern: optional dot versus the spec's mandatory dot -/

theorem matches_dot {c : Char} (h : c = '.') :
    Matches (.cls (fun c => c = '.')) [c] := by
  exact .cls (by simp [h])

theorem configSrc_to_claim {l : Str} (h : Matches configSrcRE l) :
    Matches configClaimRE l := by
  obtain ⟨a, b, rfl, ha, hb⟩ := cat_inv h
  clear h
  refine star_ind
    (motive := fun s => ∀ a : Str, Matches (plusCls configChar) a →
      Matches configClaimRE (a ++ s))
    b hb ?_ ?_ a ha
  · intro a ha
    have := Matches.cat ha
      (Matches.starNil (r := .cat (.cls (fun c => c = '.')) (plusCls configChar)))
    simpa [configClaimRE] using this
  · intro s1 s2 hg hstar ih a ha
    obtain ⟨sd, srun, rfl, hd, hrun⟩ := cat_inv hg
    rcases alt_inv hd with hde | hdd
    · -- optional dot absent: the run merges into the leading segment
      rw [eps_inv hde]
      have hmerge : Matches (plusCls configChar) (a ++ srun) := plus_append ha hrun
      have := ih (a ++ srun) hmerge
      simpa [List.append_assoc] using this
    · -- dot present: one mandatory-dot group of the spec pattern
      obtain ⟨c, rfl, hc⟩ := cls_inv hdd
      have hc' : c = '.' := by simpa using hc
      subst hc'
      have hclaim := ih srun hrun
      obtain ⟨sh, sgs, heq, hh, hgs⟩ := cat_inv hclaim
      have hgroup : Matches (.cat (.cls (fun c => c = '.')) (plusCls configChar))
          (('.' :: sh : Str)) := by
        have := Matches.cat (matches_dot rfl) hh
        simpa using this
      have hstar' := Matches.starCons hgroup hgs
      have := Matches.cat ha hstar'
      simpa [configClaimRE, List.append_assoc, ← heq] using this

theorem configClaim_to_src {l : Str} (h : Matches configClaimRE l) :
    Matches configSrcRE l := by
  obtain ⟨a, b, rfl, ha, hb⟩ := cat_inv h
  clear h
  refine Matches.cat ha ?_
  refine star_ind
    (motive := fun s => Matches
      (.star (.cat (.alt .eps (.cls (fun c => c = '.'))) (plusCls configChar))) s)
    b hb ?_ ?_
  · exact .starNil
  · intro s1 s2 hg hstar ih
    obtain ⟨sd, srun, rfl, hd, hrun⟩ := cat_inv hg
    obtain ⟨c, rfl, hc⟩ := cls_inv hd
    have hgroup : Matches (.cat (.alt .eps (.cls (fun c => c = '.')))
        (plusCls configChar)) ([c] ++ srun) :=
      .cat (.altR (.cls hc)) hrun
    exact .starCons hgroup ih

theorem matches_configSrc_iff_claim {l : Str} :
    Matches configSrcRE l ↔ Matches configClaimRE l :=
  ⟨configSrc_to_claim, configClaim_to_src⟩

/-! ## Escaping invariant of `sanitize_input`

`escOK S l` says every occurrence in `l` of a character of `S` is immediately
preceded by a backslash. -/

def escOK (S : List Char) (l : Str) : Prop :=
  ∀ pre d post, l = pre ++ d :: post → d ∈ S → ∃ q, pre = q ++ ['\\']

theorem expandEach_append (f : Char → Str) (a b : Str) :
    expandEach f (a ++ b) = expandEach f a ++ expandEach f b := by
  induction a with
  | nil => rfl
  | cons x a ih => simp [expandEach, ih]

theorem expandEach_decomp {f : Char → Str} {l pre post : Str} {d : Char}
    (h : expandEach f l = pre ++ d :: post) :
    ∃ la x lb b1 b2, l = la ++ x :: lb ∧ f x = b1 ++ d :: b2 ∧
      pre = expandEach f la ++ b1 := by
  induction l generalizing pre with
  | nil =>
      exact absurd h (by simp [expandEach])
  | cons x rest ih =>
      rw [expandEach] at h
      rcases List.append_eq_append_iff.mp h.symm with ⟨m, hm1, hm2⟩ | ⟨m, hm1, hm2⟩
      · -- `pre` splits inside `f x` (or exactly at its end)
        cases m with
        | nil =>
            rw [List.append_nil] at hm1
            have hm2' : expandEach f rest = [] ++ d :: post := by
              simpa using hm2.symm
            obtain ⟨la, x', lb, b1, b2, hl, hfx, hpre⟩ := ih hm2'
            rcases List.append_eq_nil.mp hpre.symm with ⟨hp1, hp2⟩
            refine ⟨x :: la, x', lb, b1, b2, by simp [hl], hfx, ?_⟩
            simp [expandEach, hp1, hp2, hm1]
        | cons e m' =>
            have hed : d = e := by
              have := congrArg (fun t => t.head?) hm2
              simpa using this
            subst hed
            refine ⟨[], x, rest, pre, m', rfl, by rw [hm1], by simp [expandEach]⟩
      · -- the occurrence lies inside `expandEach f rest`
        obtain ⟨la, x', lb, b1, b2, hl, hfx, hpre⟩ := ih hm2
        refine ⟨x :: la, x', lb, b1, b2, by simp [hl], hfx, ?_⟩
        rw [hm1, hpre, expandEach, List.append_assoc]

theorem escOK_step {S : List Char} {l : Str} {c : Char} (hl : escOK S l)
    (hbs : '\\' ∉ S) (hc : c ≠ '\\') :
    escOK (S ++ [c]) (replaceCharWith c ['\\', c] l) := by
  intro pre d post h hd
  obtain ⟨la, x, lb, b1, b2, hdec, hfx, hpre⟩ := expandEach_decomp h
  by_cases hxc : x = c
  · subst hxc
    rw [if_pos rfl] at hfx
    cases b1 with
    | nil =>
        -- the matched character would be the inserted backslash itself
        injection hfx with h1 h2
        subst h1
        rcases List.mem_append.mp hd with hS | hc1
        · exact absurd hS hbs
        · simp only [List.mem_singleton] at hc1
          exact absurd hc1.symm hc
    | cons e b1' =>
        injection hfx with h1 h2
        subst h1
        cases b1' with
        | nil =>
            exact ⟨expandEach _ la, by rw [hpre]⟩
        | cons e2 b1'' =>
            exact absurd h2 (by simp)
  · rw [if_neg hxc] at hfx
    cases b1 with
    | cons e b1' =>
        have htl := congrArg (fun t => t.tail) hfx
        simp only [List.cons_append, List.tail_cons] at htl
        exact absurd htl (by simp)
    | nil =>
        injection hfx with h1 h2
        subst h1
        rcases List.mem_append.mp hd with hS | hc1
        · obtain ⟨q, hq⟩ := hl la x lb hdec hS
          refine ⟨expandEach (fun y => if y = c then ['\\', c] else [y]) q, ?_⟩
          rw [hpre, hq, expandEach_append]
          simp [expandEach, if_neg (show ¬('\\' = c) from fun h => hc h.symm)]
        · simp only [List.mem_singleton] at hc1
          exact absurd hc1 hxc

theorem escOK_fold : ∀ (cs S : List Char) (l : Str), escOK S l →
    '\\' ∉ S → '\\' ∉ cs →
    escOK (S ++ cs) (cs.foldl (fun s c => replaceCharWith c ['\\', c] s) l) := by
  intro cs
  induction cs with
  | nil =>
      intro S l hl hbs _
      simpa using hl
  | cons c cs ih =>
      intro S l hl hbs hcs
      have hc : c ≠ '\\' := by
        intro he
        exact hcs (he ▸ List.mem_cons_self c cs)
      have hbs' : '\\' ∉ S ++ [c] := by
        intro hmem
        rcases List.mem_append.mp hmem with hS | h1
        · exact hbs hS
        · simp only [List.mem_singleton] at h1
          exact hc h1.symm
      have hcs' : '\\' ∉ cs := fun hmem => hcs (List.mem_cons_of_mem c hmem)
      have := ih (S ++ [c]) (replaceCharWith c ['\\', c] l)
        (escOK_step hl hbs hc) hbs' hcs'
      simpa [List.append_assoc] using this

/-- Every dangerous character in a sanitized string is immediately preceded
by a backslash. -/
theorem sanitize_escOK (v : Str) :
    escOK dangerous_chars (sanitize_input (some v)) := by
  have h0 : escOK ([] : List Char)
      (replaceCharWith '\\' ['\\', '\\'] (v.filter (fun c => !(c = '\x00')))) := by
    intro pre d post _ hd
    cases hd
  have := escOK_fold dangerous_chars []
    (replaceCharWith '\\' ['\\', '\\'] (v.filter (fun c => !(c = '\x00'))))
    h0 (by simp) (by decide)
  simpa [sanitize_input] using this

/-! ## Python string helpers used by the executor and the handlers -/

/-- ASCII whitespace stripped by Python `str.strip()`. -/
def isPySpace (c : Char) : Bool :=
  c = ' ' || c = '\t' || c = '\n' || c = '\r' || c = '\x0b' || c = '\x0c'

/-- Python `s.strip()`: drop whitespace from both ends. -/
def pyStrip (l : Str) : Str :=
  ((l.dropWhile isPySpace).reverse.dropWhile isPySpace).reverse

/-- Python `s.split(sep)` for a one-character separator; empty pieces are
kept, and the empty string splits to `[""]`. -/
def pySplit (sep : Char) : Str → List Str
  | [] => [[]]
  | c :: rest =>
      if c = sep then [] :: pySplit sep rest
      else
        match pySplit sep rest with
        | [] => [[c]]
        | h :: t => (c :: h) :: t

/-- The two pieces of Python `s.split(sep, 1)` when `sep` occurs in `s`:
the text before and after the first occurrence. -/
def splitFirst (sep : Char) : Str → Str × Str
  | [] => ([], [])
  | c :: rest =>
      if c = sep then ([], rest)
      else
        let p := splitFirst sep rest
        (c :: p.1, p.2)

/-- Python `s.split()` with no separator (used by `task_run` for
`args.split()` and by `task_ls` line parsing): split on whitespace runs,
discarding empty pieces. -/
def pySplitWs (l : Str) : List Str :=
  (l.foldr
    (fun c acc =>
      if isPySpace c then [] :: acc
      else
        match acc with
        | [] => [[c]]
        | w :: ws => (c :: w) :: ws)
    []).filter (fun w => !w.isEmpty)

/-- Python `d[k] = v` on a `dict`: replace the value in place when the key
exists (keeping insertion order), else append. -/
def dictInsert {V : Type} : List (Str × V) → Str → V → List (Str × V)
  | [], k, v => [(k, v)]
  | (k', v') :: rest, k, v =>
      if k' = k then (k', v) :: rest else (k', v') :: dictInsert rest k v

/-- Association lookup (keys of a built dict are unique, so first = only). -/
def dictLookup {V : Type} : List (Str × V) → Str → Option V
  | [], _ => none
  | (k', v') :: rest, k => if k' = k then some v' else dictLookup rest k

/-- Python `str.lower()` (the program only lowercases ASCII output keys). -/
def pyLower (l : Str) : Str := l.map Char.toLower

/-! ## The command executor (`utils/command.py`, `run_mise_command`) -/

/-- The `CommandResult` dataclass (`command.py` lines 10-17). -/
structure CommandResult where
  success : Bool
  output : Str
  error : Str
  return_code : Int

/-- Outcome of the attempt to spawn and await the child process, the
executor's interaction with the outside world: the spawn raises, the wait
times out, or the process completes with an exit status and both streams
(already decoded from bytes; decoding with `errors="replace"` never fails). -/
inductive ProcOutcome where
  | spawnExc (msg : Str)
  | timedOut
  | completed (rc : Int) (stdout stderr : Str)

/-- Process-management calls the executor makes on the timeout path. -/
inductive ProcAction where
  | kill
  | wait
deriving DecidableEq

/-- What one call of `run_mise_command` did: its returned `CommandResult`,
the argument vector passed to `create_subprocess_exec` (when one was built),
and the kill/wait actions performed. -/
structure ExecOutput where
  result : CommandResult
  spawned : Option (List Str)
  actions : List ProcAction

/-- Lines 47-49 of `command.py`: `cmd_parts = [mise_path, command]` then
`if args: cmd_parts.extend(args)`.  Extending by nothing when `args` is
`None` or empty yields the same vector, so the embedding appends always. -/
def cmd_parts (misePath command : Str) (args : List Str) : List Str :=
  [misePath, command] ++ args

/-- Embedding of `run_mise_command` (`command.py` lines 20-92).
`misePath` is the result of `shutil.which("mise")`; `oc` is how the spawned
process behaves; `timeoutRepr` is the text Python interpolates for the
`timeout` float in the timeout message.  The merge of `env` over a copy of
`os.environ` (lines 52-54) touches only the child's environment, which no
modelled output depends on; the parameter is kept and recorded by callers. -/
def run_mise_command (misePath : Option Str) (oc : ProcOutcome)
    (command : Str) (args : List Str) (timeoutRepr : Str)
    (_env : Option (List (Str × Str))) : ExecOutput :=
  match misePath with
  | none =>
      { result := { success := false, output := [],
                    error := lit "mise CLI not found in PATH", return_code := 1 },
        spawned := none, actions := [] }
  | some mp =>
      match oc with
      | .spawnExc msg =>
          { result := { success := false, output := [],
                        error := lit "Failed to execute command: " ++ msg,
                        return_code := 1 },
            spawned := some (cmd_parts mp command args), actions := [] }
      | .timedOut =>
          { result := { success := false, output := [],
                        error := lit "Command timed out after " ++ timeoutRepr ++
                          lit " seconds",
                        return_code := -1 },
            spawned := some (cmd_parts mp command args),
            actions := [.kill, .wait] }
      | .completed rc out err =>
          { result := { success := decide (rc = 0), output := pyStrip out,
                        error := pyStrip err,
                        return_code := if rc = 0 then 0 else rc },
            spawned := some (cmd_parts mp command args), actions := [] }

/-! ## Tool handlers (`server.py`)

Handler responses are Python dicts of JSON-compatible values, modelled as
insertion-ordered association lists of `JVal`. -/

inductive JVal where
  | null
  | bool (b : Bool)
  | int (n : Int)
  | str (s : Str)
  | arr (elems : List JVal)
  | obj (fields : List (Str × JVal))

/-- One invocation of the executor, as a handler makes it. -/
structure ExecCall where
  command : Str
  args : List Str
  timeoutRepr : Str
  extraEnv : Option (List (Str × Str))

/-- A handler's response together with the executor calls it made. -/
structure HandlerOut where
  resp : List (Str × JVal)
  calls : List ExecCall

/-- The executor's environment: where `mise` resolves to and how the child
process behaves. -/
structure ExecEnv where
  misePath : Option Str
  outcome : ProcOutcome

/-- Python truthiness of an `Optional[str]`: `None` and `""` are falsy. -/
def truthyStr : Option Str → Bool
  | none => false
  | some s => !s.isEmpty

def optVal : Option Str → Str
  | none => []
  | some s => s

/-- A handler's call `await run_mise_command("", args, ...)`: the result it
sees and the record of the call. -/
def callMise (E : ExecEnv) (args : List Str) (timeoutRepr : Str)
    (env : Option (List (Str × Str))) : CommandResult × ExecCall :=
  ((run_mise_command E.misePath E.outcome [] args timeoutRepr env).result,
   { command := [], args := args, timeoutRepr := timeoutRepr, extraEnv := env })

/-- Embedding of `set_env` (`server.py` lines 32-64). -/
def set_env (E : ExecEnv) (key value : Str) (file : Option Str) : HandlerOut :=
  if validate_env_var_name key = false then
    { resp := [(lit "success", .bool false),
               (lit "error", .str (lit "Invalid environment variable name: " ++ key))],
      calls := [] }
  else
    let args := [lit "env", lit "set"] ++
      (if truthyStr file then [lit "--file", optVal file] else []) ++ [key, value]
    let rc := callMise E args (lit "30.0") none
    { resp := [(lit "success", .bool rc.1.success),
               (lit "key", .str key),
               (lit "value", .str value),
               (lit "output", if rc.1.success then .str rc.1.output else .null),
               (lit "error", if rc.1.success then .null else .str rc.1.error)],
      calls := [rc.2] }

/-- The `env_vars` dict `get_env` builds from the output (`server.py` lines
100-105): split on newlines, split each line containing `=` at the first
`=`, assign into a dict. -/
def envVarsOf (out : Str) : List (Str × Str) :=
  (pySplit '\n' out).foldl
    (fun d line =>
      if line.contains '=' then
        dictInsert d (splitFirst '=' line).1 (splitFirst '=' line).2
      else d)
    []

/-- Embedding of `get_env` (`server.py` lines 67-114). -/
def get_env (E : ExecEnv) (key : Option Str) : HandlerOut :=
  if truthyStr key && !(validate_env_var_name (optVal key)) then
    { resp := [(lit "success", .bool false),
               (lit "error",
                .str (lit "Invalid environment variable name: " ++ optVal key))],
      calls := [] }
  else
    let args := if truthyStr key then [lit "env", lit "get", optVal key]
      else [lit "env"]
    let rc := callMise E args (lit "30.0") none
    { resp :=
        if rc.1.success then
          if truthyStr key then
            [(lit "success", .bool true),
             (lit "key", .str (optVal key)),
             (lit "value", .str rc.1.output)]
          else
            [(lit "success", .bool true),
             (lit "variables",
              .obj ((envVarsOf rc.1.output).map (fun kv => (kv.1, .str kv.2))))]
        else
          [(lit "success", .bool false), (lit "error", .str rc.1.error)],
      calls := [rc.2] }

/-- Embedding of `unset_env` (`server.py` lines 117-147). -/
def unset_env (E : ExecEnv) (key : Str) (file : Option Str) : HandlerOut :=
  if validate_env_var_name key = false then
    { resp := [(lit "success", .bool false),
               (lit "error", .str (lit "Invalid environment variable name: " ++ key))],
      calls := [] }
  else
    let args := [lit "env", lit "unset"] ++
      (if truthyStr file then [lit "--file", optVal file] else []) ++ [key]
    let rc := callMise E args (lit "30.0") none
    { resp := [(lit "success", .bool rc.1.success),
               (lit "key", .str key),
               (lit "output", if rc.1.success then .str rc.1.output else .null),
               (lit "error", if rc.1.success then .null else .str rc.1.error)],
      calls := [rc.2] }

/-- Embedding of `task_run` (`server.py` lines 152-188). -/
def task_run (E : ExecEnv) (task : Str) (targs cd : Option Str) : HandlerOut :=
  if validate_task_name task = false then
    { resp := [(lit "success", .bool false),
               (lit "error", .str (lit "Invalid task name: " ++ task))],
      calls := [] }
  else
    let args := [lit "tasks", lit "run"] ++
      (if truthyStr cd then [lit "--cd", optVal cd] else []) ++ [task] ++
      (if truthyStr targs then pySplitWs (optVal targs) else [])
    let rc := callMise E args (lit "60.0") none
    { resp := [(lit "success", .bool rc.1.success),
               (lit "task", .str task),
               (lit "output", .str rc.1.output),
               (lit "error", if rc.1.success then .null else .str rc.1.error),
               (lit "return_code", .int rc.1.return_code)],
      calls := [rc.2] }

/-- The `info` dict `task_info` builds (`server.py` lines 253-266): seeded
with the task name and the raw output, then one entry per output line
containing `:`, the key stripped, lowercased, spaces replaced by
underscores, the value stripped. -/
def taskInfoOf (task out : Str) : List (Str × Str) :=
  (pySplit '\n' out).foldl
    (fun info line =>
      if line.contains ':' then
        dictInsert info
          ((pyLower (pyStrip (splitFirst ':' line).1)).map
            (fun c => if c = ' ' then '_' else c))
          (pyStrip (splitFirst ':' line).2)
      else info)
    [(lit "name", task), (lit "raw_output", out)]

/-- Embedding of `task_info` (`server.py` lines 233-276). -/
def task_info (E : ExecEnv) (task : Str) : HandlerOut :=
  if validate_task_name task = false then
    { resp := [(lit "success", .bool false),
               (lit "error", .str (lit "Invalid task name: " ++ task))],
      calls := [] }
  else
    let rc := callMise E [lit "tasks", lit "info", task] (lit "30.0") none
    { resp :=
        if rc.1.success then
          [(lit "success", .bool true),
           (lit "task_info",
            .obj ((taskInfoOf task rc.1.output).map (fun kv => (kv.1, .str kv.2))))]
        else
          [(lit "success", .bool false), (lit "error", .str rc.1.error)],
      calls := [rc.2] }

/-- Embedding of `task_edit` (`server.py` lines 279-311): `env` is
`{"EDITOR": editor}` when `editor` is truthy, and `None` otherwise
(`env if env else None` with an empty dict being falsy). -/
def task_edit (E : ExecEnv) (task : Str) (editor : Option Str) : HandlerOut :=
  if validate_task_name task = false then
    { resp := [(lit "success", .bool false),
               (lit "error", .str (lit "Invalid task name: " ++ task))],
      calls := [] }
  else
    let env := if truthyStr editor then some [(lit "EDITOR", optVal editor)] else none
    let rc := callMise E [lit "tasks", lit "edit", task] (lit "30.0") env
    { resp := [(lit "success", .bool rc.1.success),
               (lit "task", .str task),
               (lit "message",
                if rc.1.success then .str (lit "Task opened for editing") else .null),
               (lit "error", if rc.1.success then .null else .str rc.1.error)],
      calls := [rc.2] }

/-- Embedding of `task_deps` (`server.py` lines 314-351). -/
def task_deps (E : ExecEnv) (task : Str) : HandlerOut :=
  if validate_task_name task = false then
    { resp := [(lit "success", .bool false),
               (lit "error", .str (lit "Invalid task name: " ++ task))],
      calls := [] }
  else
    let rc := callMise E [lit "tasks", lit "deps", task] (lit "30.0") none
    let deps := (pySplit '\n' rc.1.output).filterMap
      (fun line => if (pyStrip line).isEmpty then none else some (pyStrip line))
    { resp :=
        if rc.1.success then
          [(lit "success", .bool true),
           (lit "task", .str task),
           (lit "dependencies", .arr (deps.map .str)),
           (lit "count", .int deps.length)]
        else
          [(lit "success", .bool false), (lit "error", .str rc.1.error)],
      calls := [rc.2] }

/-- Embedding of `get_config` (`server.py` lines 356-404).  `json.loads` is
an external library routine, taken as an oracle `jparse`; `none` models a
`JSONDecodeError`. -/
def get_config (E : ExecEnv) (key : Option Str)
    (jparse : Str → Option JVal) : HandlerOut :=
  if truthyStr key && !(validate_config_key (optVal key)) then
    { resp := [(lit "success", .bool false),
               (lit "error",
                .str (lit "Invalid configuration key: " ++ optVal key))],
      calls := [] }
  else
    let args := [lit "config", lit "get"] ++
      (if truthyStr key then [optVal key] else [])
    let rc := callMise E args (lit "30.0") none
    { resp :=
        if rc.1.success then
          if truthyStr key then
            [(lit "success", .bool true),
             (lit "key", .str (optVal key)),
             (lit "value", .str rc.1.output)]
          else
            match jparse rc.1.output with
            | some cfg => [(lit "success", .bool true), (lit "config", cfg)]
            | none =>
                [(lit "success", .bool true), (lit "raw_config", .str rc.1.output)]
        else
          [(lit "success", .bool false), (lit "error", .str rc.1.error)],
      calls := [rc.2] }

/-- Embedding of `self_update` (`server.py` lines 439-463). -/
def self_update (E : ExecEnv) (version : Option Str) (force : Bool) : HandlerOut :=
  let args := [lit "self-update"] ++
    (if truthyStr version then [optVal version] else []) ++
    (if force then [lit "--force"] else [])
  let rc := callMise E args (lit "120.0") none
  { resp := [(lit "success", .bool rc.1.success),
             (lit "output", .str rc.1.output),
             (lit "error", if rc.1.success then .null else .str rc.1.error)],
    calls := [rc.2] }

/-- Embedding of `fmt_config` (`server.py` lines 466-487). -/
def fmt_config (E : ExecEnv) (path : Option Str) : HandlerOut :=
  let args := [lit "fmt"] ++ (if truthyStr path then [optVal path] else [])
  let rc := callMise E args (lit "30.0") none
  { resp := [(lit "success", .bool rc.1.success),
             (lit "formatted_files",
              .arr (if rc.1.success && !rc.1.output.isEmpty then
                (pySplit '\n' rc.1.output).map .str
              else [])),
             (lit "error", if rc.1.success then .null else .str rc.1.error)],
    calls := [rc.2] }

/-! ## Dict semantics: the last assignment to a key wins -/

theorem dictLookup_insert {V : Type} (d : List (Str × V)) (k q : Str) (v : V) :
    dictLookup (dictInsert d k v) q = if k = q then some v else dictLookup d q := by
  induction d with
  | nil =>
      by_cases hk : k = q <;> simp [dictInsert, dictLookup, hk]
  | cons kv rest ih =>
      obtain ⟨k', v'⟩ := kv
      by_cases hk' : k' = k
      · subst hk'
        by_cases hq : k' = q <;> simp [dictInsert, dictLookup, hq]
      · by_cases hq : k' = q
        · subst hq
          have hkq : ¬(k = k') := fun he => hk' he.symm
          simp [dictInsert, hk', dictLookup, hkq]
        · simp [dictInsert, hk', dictLookup, hq, ih]

theorem dictLookup_foldl {V : Type} :
    ∀ (entries : List (Str × V)) (d : List (Str × V)) (q : Str),
      dictLookup (entries.foldl (fun d kv => dictInsert d kv.1 kv.2) d) q =
        (match entries.reverse.find? (fun kv => decide (kv.1 = q)) with
         | some kv => some kv.2
         | none => dictLookup d q) := by
  intro entries
  induction entries with
  | nil => intro d q; simp
  | cons kv rest ih =>
      intro d q
      rw [List.foldl_cons, ih]
      rw [List.reverse_cons, List.find?_append]
      cases hfind : rest.reverse.find? (fun kv => decide (kv.1 = q)) with
      | some kv' => simp [Option.or]
      | none =>
          simp only [Option.or]
          rw [dictLookup_insert]
          by_cases hk : kv.1 = q
          · simp [List.find?, hk]
          · simp [List.find?, hk]

/-- Spec-side reading of the multi-value parse: the value of the LAST line
containing `=` whose text before the first `=` is the queried key. -/
def lastAssign (lines : List Str) (q : Str) : Option Str :=
  ((lines.filterMap
      (fun line => if line.contains '=' then some (splitFirst '=' line) else none)).reverse.find?
    (fun kv => decide (kv.1 = q))).map Prod.snd

theorem foldl_guard_filterMap {α β γ : Type} (g : γ → β → γ) (C : α → Bool)
    (f : α → β) :
    ∀ (ls : List α) (init : γ),
      ls.foldl (fun d a => if C a then g d (f a) else d) init =
        (ls.filterMap (fun a => if C a then some (f a) else none)).foldl g init := by
  intro ls
  induction ls with
  | nil => intro init; rfl
  | cons a ls ih =>
      intro init
      by_cases hC : C a = true <;>
        simp [List.filterMap_cons, hC, ih, List.foldl_cons]

/-- Looking a key up in the dict `get_env` builds returns the value from the
last `=`-line for that key: duplicate keys are won by the last occurrence,
and `=`-free lines never contribute. -/
theorem envVarsOf_lookup (out q : Str) :
    dictLookup (envVarsOf out) q = lastAssign (pySplit '\n' out) q := by
  have h1 := foldl_guard_filterMap
    (fun (d : List (Str × Str)) kv => dictInsert d kv.1 kv.2)
    (fun line : Str => line.contains '=')
    (fun line => splitFirst '=' line) (pySplit '\n' out) []
  have h3 : dictLookup (envVarsOf out) q =
      dictLookup (((pySplit '\n' out).filterMap
        (fun line => if line.contains '=' then some (splitFirst '=' line)
          else none)).foldl (fun d kv => dictInsert d kv.1 kv.2) []) q :=
    congrArg (fun d => dictLookup d q) h1
  rw [h3, dictLookup_foldl]
  unfold lastAssign
  cases hf : ((pySplit '\n' out).filterMap
      (fun line => if line.contains '=' then some (splitFirst '=' line)
        else none)).reverse.find? (fun kv => decide (kv.1 = q)) <;>
    simp [dictLookup]

/-! ## The claims -/

/-- Whether the execution attempt timed out (a process only times out when
`mise` was found and hence a process was awaited). -/
def processTimedOut (misePath : Option Str) (oc : ProcOutcome) : Bool :=
  misePath.isSome &&
    (match oc with
     | .timedOut => true
     | _ => false)

/-- C1: the claim says a call of the executor with subcommand `""` spawns
the vector `[executable_path, *arguments]` with no empty-string token.  The
code (`command.py` line 47, `cmd_parts = [mise_path, command]`) always
inserts the subcommand string, so the spawned vector is
`[executable_path, "", *arguments]`, which contains an empty-string token —
for every outcome, and in particular for the vector `set_env` triggers. -/
theorem C1_empty_subcommand_token_is_spawned :
    (∀ (mp : Str) (oc : ProcOutcome) (args : List Str) (t : Str)
        (e : Option (List (Str × Str))),
      (run_mise_command (some mp) oc [] args t e).spawned =
        some ([mp, []] ++ args)) ∧
    (run_mise_command (some (lit "/usr/bin/mise")) (.completed 0 [] []) []
        [lit "env", lit "set", lit "FOO", lit "v"] (lit "30.0") none).spawned =
      some [lit "/usr/bin/mise", lit "", lit "env", lit "set", lit "FOO", lit "v"] ∧
    (lit "") ∈ [lit "/usr/bin/mise", lit "", lit "env", lit "set", lit "FOO", lit "v"] := by
  refine ⟨?_, rfl, by simp⟩
  intro mp oc args t e
  cases oc <;> rfl

/-- C2: for every execution attempt (executable missing, spawn exception,
timeout, or completion with any exit status), the returned result satisfies
`success = true` iff `return_code = 0` and the process did not time out. -/
theorem C2_success_iff_zero_exit_and_no_timeout :
    ∀ (mp : Option Str) (oc : ProcOutcome) (cmd : Str) (args : List Str)
      (t : Str) (e : Option (List (Str × Str))),
      (run_mise_command mp oc cmd args t e).result.success = true ↔
        ((run_mise_command mp oc cmd args t e).result.return_code = 0 ∧
          processTimedOut mp oc = false) := by
  intro mp oc cmd args t e
  cases mp with
  | none => cases oc <;> simp [run_mise_command, processTimedOut]
  | some mp =>
      cases oc with
      | spawnExc m => simp [run_mise_command, processTimedOut]
      | timedOut => simp [run_mise_command, processTimedOut]
      | completed rc out err =>
          by_cases hrc : rc = 0 <;>
            simp [run_mise_command, processTimedOut, hrc]

/-- C3: `sanitize_input` returns `""` for a null input, doubles the
backslash of `"a\b"`, and in general every occurrence of a character of the
fixed dangerous set in a sanitized string is immediately preceded by a
backslash (no unescaped metacharacter survives). -/
theorem C3_sanitize_escapes_metacharacters :
    sanitize_input none = lit "" ∧
    sanitize_input (some (lit "a\\b")) = lit "a\\\\b" ∧
    (∀ (v pre : Str) (d : Char) (post : Str),
      sanitize_input (some v) = pre ++ d :: post → d ∈ dangerous_chars →
        ∃ q, pre = q ++ ['\\']) := by
  refine ⟨rfl, by decide, ?_⟩
  intro v pre d post h hd
  exact sanitize_escOK v pre d post h hd

/-- Witness for C3: in `sanitize_input("`")`, whose value is `\``, the
backtick at position 1 is preceded by a backslash. -/
theorem C3_sanitize_escapes_metacharacters_witness :
    ∃ q : Str, ['\\'] = q ++ ['\\'] :=
  C3_sanitize_escapes_metacharacters.2.2 (lit "`") ['\\'] '`' []
    (by decide) (by decide)

/-- C5: on timeout the executor kills the child, then waits for it, and
returns `success = false`, `return_code = -1`, empty output and an error
message that states the timeout duration. -/
theorem C5_timeout_kills_waits_and_reports :
    ∀ (mp cmd : Str) (args : List Str) (t : Str)
      (e : Option (List (Str × Str))),
      run_mise_command (some mp) .timedOut cmd args t e =
        { result := { success := false, output := [],
                      error := lit "Command timed out after " ++ t ++ lit " seconds",
                      return_code := -1 },
          spawned := some (cmd_parts mp cmd args),
          actions := [.kill, .wait] } ∧
      (∃ pre suf,
        (run_mise_command (some mp) .timedOut cmd args t e).result.error =
          pre ++ t ++ suf) := by
  intro mp cmd args t e
  exact ⟨rfl, lit "Command timed out after ", lit " seconds", rfl⟩

/-- C6 counterexample: `validate_env_var_name` accepts `"FOO\n"`, which the
anchored pattern `^[A-Za-z_][A-Za-z0-9_]*$` (read as a language) does not
contain, because Python's `$` also matches just before one final newline. -/
theorem C6_env_name_trailing_newline_accepted :
    validate_env_var_name (lit "FOO\n") = true ∧
      ¬ Matches envRE (lit "FOO\n") :=
  ⟨by decide, not_matches_of_reMatch_false (by decide)⟩

/-- C6 amended: `is_valid_environment_name(s)` is true iff `s` is in the
language of `[A-Za-z_][A-Za-z0-9_]*`, or `s` is such a word followed by
exactly one newline (Python `$` semantics).  Empty string, leading digit,
and embedded dash/space/dot/dollar all remain rejected, as the pattern
admits none of them. -/
theorem C6_env_name_iff_pattern_python_dollar :
    ∀ s : Str, validate_env_var_name s = true ↔
      (Matches envRE s ∨ ∃ t, Matches envRE t ∧ s = t ++ ['\n']) := by
  intro s
  exact validate_shape_iff envRE rfl s

/-- C7 counterexample: `validate_config_key` accepts `"a\n"`, which the
spec's language `[A-Za-z0-9_\-]+(\.[A-Za-z0-9_\-]+)*` does not contain. -/
theorem C7_config_key_trailing_newline_accepted :
    validate_config_key (lit "a\n") = true ∧
      ¬ Matches configClaimRE (lit "a\n") :=
  ⟨by decide, not_matches_of_reMatch_false (by decide)⟩

/-- C7 amended: `is_valid_config_key(s)` is true iff `s` is in the language
of `[A-Za-z0-9_\-]+(\.[A-Za-z0-9_\-]+)*` — dot-delimited non-empty segments,
no leading, trailing or doubled dots — or is such a word followed by exactly
one newline (Python `$` semantics).  The source pattern's optional dot
`(\.?[A-Za-z0-9_\-]+)*` generates the same language as the spec's mandatory
dot, which `matches_configSrc_iff_claim` proves. -/
theorem C7_config_key_iff_pattern_python_dollar :
    ∀ s : Str, validate_config_key s = true ↔
      (Matches configClaimRE s ∨ ∃ t, Matches configClaimRE t ∧ s = t ++ ['\n']) := by
  intro s
  have h := validate_shape_iff configSrcRE rfl s
  constructor
  · intro hv
    rcases h.mp hv with hm | ⟨t, ht, rfl⟩
    · exact .inl (configSrc_to_claim hm)
    · exact .inr ⟨t, configSrc_to_claim ht, rfl⟩
  · intro hm
    apply h.mpr
    rcases hm with hm | ⟨t, ht, rfl⟩
    · exact .inl (configClaim_to_src hm)
    · exact .inr ⟨t, configClaim_to_src ht, rfl⟩

/-- C10 counterexample: `"FOO\n"` is accepted by `validate_env_var_name`,
but `"FOO\n"` followed by one more trailing newline is rejected — so "every
accepted string stays accepted after appending one newline" is false. -/
theorem C10_double_newline_rejected :
    validate_env_var_name (lit "FOO\n") = true ∧
      validate_env_var_name (lit "FOO\n" ++ ['\n']) = false := by
  decide

theorem validate_append_newline {core : RE} {s : Str}
    (h : reMatch core s = true) :
    (if s ++ ['\n'] = [] then false else pyMatchDollar core (s ++ ['\n'])) = true := by
  rw [if_neg (by simp)]
  unfold pyMatchDollar
  rw [Bool.or_eq_true]
  right
  rw [if_pos (by rw [List.getLast?_concat]), List.dropLast_concat]
  exact h

/-- C10 amended: every string matched by a validator's core pattern itself
(not merely accepted via the `$` trailing-newline allowance) is still
accepted after appending exactly one newline; this holds for all three
validators. -/
theorem C10_core_match_accepts_one_trailing_newline :
    (∀ s : Str, reMatch envRE s = true →
      validate_env_var_name (s ++ ['\n']) = true) ∧
    (∀ s : Str, reMatch taskRE s = true →
      validate_task_name (s ++ ['\n']) = true) ∧
    (∀ s : Str, reMatch configSrcRE s = true →
      validate_config_key (s ++ ['\n']) = true) := by
  refine ⟨fun s h => ?_, fun s h => ?_, fun s h => ?_⟩ <;>
    exact validate_append_newline h

/-- Witness for C10: `"FOO"` matches the environment-name core pattern, and
`"FOO\n"` is accepted. -/
theorem C10_core_match_accepts_one_trailing_newline_witness :
    validate_env_var_name (lit "FOO" ++ ['\n']) = true :=
  C10_core_match_accepts_one_trailing_newline.1 (lit "FOO") (by decide)

/-- C4: every handler that validates an identifier short-circuits on a
failing input: it returns `success = false` with an error message naming the
offending field, and never invokes the executor; in particular
`set_env("123-bad", "v")` returns `success = false` with an error containing
"Invalid environment variable name" and makes no executor call. -/
theorem C4_validation_failure_short_circuits :
    (∀ (E : ExecEnv) (key value : Str) (file : Option Str),
      validate_env_var_name key = false →
        (set_env E key value file).calls = [] ∧
        dictLookup (set_env E key value file).resp (lit "success") =
          some (.bool false) ∧
        dictLookup (set_env E key value file).resp (lit "error") =
          some (.str (lit "Invalid environment variable name: " ++ key))) ∧
    (∀ (E : ExecEnv) (key : Option Str),
      truthyStr key = true → validate_env_var_name (optVal key) = false →
        (get_env E key).calls = [] ∧
        dictLookup (get_env E key).resp (lit "success") = some (.bool false) ∧
        dictLookup (get_env E key).resp (lit "error") =
          some (.str (lit "Invalid environment variable name: " ++ optVal key))) ∧
    (∀ (E : ExecEnv) (key : Str) (file : Option Str),
      validate_env_var_name key = false →
        (unset_env E key file).calls = [] ∧
        dictLookup (unset_env E key file).resp (lit "success") =
          some (.bool false) ∧
        dictLookup (unset_env E key file).resp (lit "error") =
          some (.str (lit "Invalid environment variable name: " ++ key))) ∧
    (∀ (E : ExecEnv) (task : Str) (targs cd : Option Str),
      validate_task_name task = false →
        (task_run E task targs cd).calls = [] ∧
        dictLookup (task_run E task targs cd).resp (lit "success") =
          some (.bool false) ∧
        dictLookup (task_run E task targs cd).resp (lit "error") =
          some (.str (lit "Invalid task name: " ++ task))) ∧
    (∀ (E : ExecEnv) (task : Str),
      validate_task_name task = false →
        (task_info E task).calls = [] ∧
        dictLookup (task_info E task).resp (lit "success") = some (.bool false) ∧
        dictLookup (task_info E task).resp (lit "error") =
          some (.str (lit "Invalid task name: " ++ task))) ∧
    (∀ (E : ExecEnv) (task : Str) (editor : Option Str),
      validate_task_name task = false →
        (task_edit E task editor).calls = [] ∧
        dictLookup (task_edit E task editor).resp (lit "success") =
          some (.bool false) ∧
        dictLookup (task_edit E task editor).resp (lit "error") =
          some (.str (lit "Invalid task name: " ++ task))) ∧
    (∀ (E : ExecEnv) (task : Str),
      validate_task_name task = false →
        (task_deps E task).calls = [] ∧
        dictLookup (task_deps E task).resp (lit "success") = some (.bool false) ∧
        dictLookup (task_deps E task).resp (lit "error") =
          some (.str (lit "Invalid task name: " ++ task))) ∧
    (∀ (E : ExecEnv) (key : Option Str) (jparse : Str → Option JVal),
      truthyStr key = true → validate_config_key (optVal key) = false →
        (get_config E key jparse).calls = [] ∧
        dictLookup (get_config E key jparse).resp (lit "success") =
          some (.bool false) ∧
        dictLookup (get_config E key jparse).resp (lit "error") =
          some (.str (lit "Invalid configuration key: " ++ optVal key))) ∧
    (∀ E : ExecEnv,
      (set_env E (lit "123-bad") (lit "v") none).calls = [] ∧
      dictLookup (set_env E (lit "123-bad") (lit "v") none).resp (lit "success") =
        some (.bool false) ∧
      ∃ pre suf,
        dictLookup (set_env E (lit "123-bad") (lit "v") none).resp (lit "error") =
          some (.str (pre ++ lit "Invalid environment variable name" ++ suf))) := by
  refine ⟨?_, ?_, ?_, ?_, ?_, ?_, ?_, ?_, ?_⟩
  · intro E key value file h
    unfold set_env
    rw [if_pos h]
    exact ⟨rfl, rfl, rfl⟩
  · intro E key ht hv
    unfold get_env
    rw [if_pos (by rw [ht, hv]; rfl)]
    exact ⟨rfl, rfl, rfl⟩
  · intro E key file h
    unfold unset_env
    rw [if_pos h]
    exact ⟨rfl, rfl, rfl⟩
  · intro E task targs cd h
    unfold task_run
    rw [if_pos h]
    exact ⟨rfl, rfl, rfl⟩
  · intro E task h
    unfold task_info
    rw [if_pos h]
    exact ⟨rfl, rfl, rfl⟩
  · intro E task editor h
    unfold task_edit
    rw [if_pos h]
    exact ⟨rfl, rfl, rfl⟩
  · intro E task h
    unfold task_deps
    rw [if_pos h]
    exact ⟨rfl, rfl, rfl⟩
  · intro E key jparse ht hv
    unfold get_config
    rw [if_pos (by rw [ht, hv]; rfl)]
    exact ⟨rfl, rfl, rfl⟩
  · intro E
    unfold set_env
    rw [if_pos (by decide)]
    exact ⟨rfl, rfl, lit "", lit ": 123-bad", rfl⟩

/-- Witness for C4: `set_env` with the invalid name "123-bad" and an
arbitrary executor environment returns failure without any executor call. -/
theorem C4_validation_failure_short_circuits_witness :
    (set_env ⟨none, .timedOut⟩ (lit "123-bad") (lit "v") none).calls = [] ∧
    dictLookup (set_env ⟨none, .timedOut⟩ (lit "123-bad") (lit "v") none).resp
      (lit "success") = some (.bool false) ∧
    dictLookup (set_env ⟨none, .timedOut⟩ (lit "123-bad") (lit "v") none).resp
      (lit "error") =
      some (.str (lit "Invalid environment variable name: " ++ lit "123-bad")) :=
  C4_validation_failure_short_circuits.1 ⟨none, .timedOut⟩ (lit "123-bad")
    (lit "v") none (by decide)

/-- C8: `get_env` with no key, on a successful execution, parses the output
line-by-line into a mapping — each line containing `=` is split at the first
`=`, `=`-free lines are skipped, and for duplicate keys the last line wins
(`dictLookup ∘ envVarsOf` equals the rightmost-assignment reading); against
output `"VAR1=value1\nVAR2=value2"` it returns success with
`{VAR1: value1, VAR2: value2}`. -/
theorem C8_get_env_parses_output_lines :
    (∀ mp out err : Str,
      (get_env ⟨some mp, .completed 0 out err⟩ none).resp =
        [(lit "success", .bool true),
         (lit "variables",
          .obj ((envVarsOf (pyStrip out)).map (fun kv => (kv.1, .str kv.2))))]) ∧
    (∀ out q : Str, dictLookup (envVarsOf out) q = lastAssign (pySplit '\n' out) q) ∧
    (get_env ⟨some (lit "/usr/bin/mise"),
        .completed 0 (lit "VAR1=value1\nVAR2=value2") (lit "")⟩ none).resp =
      [(lit "success", .bool true),
       (lit "variables", .obj [(lit "VAR1", .str (lit "value1")),
                               (lit "VAR2", .str (lit "value2"))])] := by
  refine ⟨?_, envVarsOf_lookup, rfl⟩
  intro mp out err
  rfl

/-- C9: no handler sanitizes its free-text arguments — every argument that
passes validation is placed in the executor's argument list verbatim; in
particular `set_env(key, value)` with no file calls the executor with
exactly `["env", "set", key, value]`, and `file`, `cd`, `editor`, `version`
and `path` reach their calls unmodified too. -/
theorem C9_free_text_arguments_passed_verbatim :
    (∀ (E : ExecEnv) (key value : Str),
      validate_env_var_name key = true →
        (set_env E key value none).calls =
          [{ command := [], args := [lit "env", lit "set", key, value],
             timeoutRepr := lit "30.0", extraEnv := none }]) ∧
    (∀ (E : ExecEnv) (key value f : Str),
      validate_env_var_name key = true → truthyStr (some f) = true →
        (set_env E key value (some f)).calls =
          [{ command := [],
             args := [lit "env", lit "set", lit "--file", f, key, value],
             timeoutRepr := lit "30.0", extraEnv := none }]) ∧
    (∀ (E : ExecEnv) (task cd : Str),
      validate_task_name task = true → truthyStr (some cd) = true →
        (task_run E task none (some cd)).calls =
          [{ command := [], args := [lit "tasks", lit "run", lit "--cd", cd, task],
             timeoutRepr := lit "60.0", extraEnv := none }]) ∧
    (∀ (E : ExecEnv) (task ed : Str),
      validate_task_name task = true → truthyStr (some ed) = true →
        (task_edit E task (some ed)).calls =
          [{ command := [], args := [lit "tasks", lit "edit", task],
             timeoutRepr := lit "30.0", extraEnv := some [(lit "EDITOR", ed)] }]) ∧
    (∀ (E : ExecEnv) (v : Str),
      truthyStr (some v) = true →
        (self_update E (some v) false).calls =
          [{ command := [], args := [lit "self-update", v],
             timeoutRepr := lit "120.0", extraEnv := none }]) ∧
    (∀ (E : ExecEnv) (p : Str),
      truthyStr (some p) = true →
        (fmt_config E (some p)).calls =
          [{ command := [], args := [lit "fmt", p],
             timeoutRepr := lit "30.0", extraEnv := none }]) := by
  refine ⟨?_, ?_, ?_, ?_, ?_, ?_⟩
  · intro E key value h
    unfold set_env
    rw [if_neg (by simp [h])]
    rfl
  · intro E key value f h ht
    unfold set_env
    rw [if_neg (by simp [h]), if_pos ht]
    rfl
  · intro E task cd h ht
    unfold task_run
    rw [if_neg (by simp [h]), if_pos ht]
    rfl
  · intro E task ed h ht
    unfold task_edit
    rw [if_neg (by simp [h]), if_pos ht]
    rfl
  · intro E v ht
    unfold self_update
    rw [if_pos ht]
    rfl
  · intro E p ht
    unfold fmt_config
    rw [if_pos ht]
    rfl

/-- Witness for C9: `set_env("FOO", "a b $(x); `y`")` passes the unsanitized
value through to the executor verbatim. -/
theorem C9_free_text_arguments_passed_verbatim_witness :
    (set_env ⟨none, .timedOut⟩ (lit "FOO") (lit "a b $(x); `y`") none).calls =
      [{ command := [],
         args := [lit "env", lit "set", lit "FOO", lit "a b $(x); `y`"],
         timeoutRepr := lit "30.0", extraEnv := none }] :=
  C9_free_text_arguments_passed_verbatim.1 ⟨none, .timedOut⟩ (lit "FOO")
    (lit "a b $(x); `y`") (by decide)

end MiseSpec
